import Mathlib

/-!
Shallow embedding of `src/log-archive.py` (a log-archival CLI tool) and
verification of its specification claims.

Modelling conventions:
* A filesystem path is a list of components (`FPath`), already absolute and
  normalized; `showPath` renders it back to a string for log entries.
* Clock reads (`time.time()`, `datetime.now()`), directory listings
  (`os.walk`, `os.listdir`) and other syscall observations are passed in an
  `Env` record, so every function is a pure function of its inputs.
* Machine file times are modelled as `Int` seconds.
* Python truthiness tests on numbers (`if threshold and ...`,
  `if args.retain:`) are translated literally: a numeric value is truthy
  iff it is nonzero, an optional value is truthy iff it is present and
  its payload is truthy.
-/

/-- A filesystem path, as absolute normalized components. -/
abbrev FPath := List String

/-- Render a path the way `os.path.join`/`abspath` would print it. -/
def showPath (p : FPath) : String :=
  p.foldl (fun acc c => acc ++ "/" ++ c) ""

/-- Python `name.startswith(pat)`. -/
def strStartsWith (s pat : String) : Bool :=
  pat.toList.isPrefixOf s.toList

/-- Python `name.endswith(pat)`. -/
def strEndsWith (s pat : String) : Bool :=
  pat.toList.reverse.isPrefixOf s.toList.reverse

/-- Holds when `p` lies at or below directory `d` (lexically, as `os.path.commonpath`
compares normalized absolute paths). -/
def underDir (d p : FPath) : Prop := ∃ r, p = d ++ r

/-- Models `os.path.commonpath([a, b])` on normalized absolute component lists:
the longest common leading run of components. -/
def commonPath : FPath → FPath → FPath
  | a :: as, b :: bs => if a = b then a :: commonPath as bs else []
  | _, _ => []

/-- One entry observed by `os.walk(root)`: the joined path
`os.path.join(dirpath, f)`, its `os.path.getmtime`, and the result of
`os.path.isfile`. -/
structure WalkEntry where
  path : FPath
  mtime : Int
  isfile : Bool
deriving DecidableEq

/-- Function `find_files(root, older_than_days)` from the source: walks the tree,
keeps regular files, and—when `threshold` is truthy—skips files whose
mtime is strictly above `threshold = time.time() - older_than_days*86400`. -/
def find_files (entries : List WalkEntry) (now : Int)
    (older_than_days : Option Int) : List FPath :=
  let threshold : Option Int :=
    match older_than_days with
    | some d => some (now - d * 86400)
    | none => none
  (entries.filter (fun e =>
    e.isfile &&
      !(match threshold with
        | some t => !(t == 0) && decide (e.mtime > t)
        | none => false))).map (fun e => e.path)

/-- Function `make_archive_name()` from the source, with the `strftime` text passed
in as `ts`. -/
def make_archive_name (ts : String) : String :=
  "logs_archive_" ++ ts ++ ".tar.gz"

/-- Function `cleanup_archives(dest_dir, pattern, retain_days, dry_run)` from the
source: returns the names it removes from the destination listing.
`listing` is the `os.listdir(dest_dir)` observation paired with each
entry's mtime. In dry-run mode nothing is removed (candidates are only
reported). -/
def cleanup_archives (listing : List (String × Int)) (now : Int)
    (pat : String) (retain_days : Option Int) (dry_run : Bool) :
    List String :=
  match retain_days with
  | none => []
  | some rd =>
    let cutoff := now - rd * 86400
    (listing.filter (fun e =>
      strStartsWith e.1 pat && strEndsWith e.1 ".tar.gz" &&
        decide (e.2 < cutoff) && !dry_run)).map (fun e => e.1)

/-- The `pattern` default of `cleanup_archives`, used by `main`'s call. -/
def cleanupDefaultPat : String := "log_archive_"

/-- Models `os.path.relpath(f, start=src_root)` for a file below `src_root`. -/
def relpath (root p : FPath) : FPath := p.drop root.length

/-- Errors an archive-writing run can raise. -/
inductive WErr
  | mkstempError
  | tarError
  | renameError
deriving DecidableEq

/-- Observable filesystem events of `write_archive`. -/
inductive WEvent
  | created (name : String)
  | removed (name : String)
  | renamed (tmp dst : String)
deriving DecidableEq

/-- Models `os.remove` of the entry named `n` in a directory listing. Each listed
file carries a flag: `true` when its content is fully written. -/
def removeName (l : List (String × Bool)) (n : String) : List (String × Bool) :=
  l.filter (fun e => !(e.1 == n))

instance {ε α : Type} [DecidableEq ε] [DecidableEq α] :
    DecidableEq (Except ε α) := fun x y =>
  match x, y with
  | .error a, .error b =>
    if h : a = b then .isTrue (by rw [h])
    else .isFalse (fun hh => h (Except.error.inj hh))
  | .ok a, .ok b =>
    if h : a = b then .isTrue (by rw [h])
    else .isFalse (fun hh => h (Except.ok.inj hh))
  | .error _, .ok _ => .isFalse (fun hh => Except.noConfusion hh)
  | .ok _, .error _ => .isFalse (fun hh => Except.noConfusion hh)

/-- Result of `write_archive`: the returned value (or the propagated
exception), the destination directory listing afterwards, the event trace,
and the member paths stored in the archive (success only). -/
structure WriteResult where
  outcome : Except WErr (Option FPath)
  destFiles : List (String × Bool)
  events : List WEvent
  members : List FPath
deriving DecidableEq

/-- Function `write_archive(files, src_root, dest_dir, archive_name, dry_run)` from
the source. `destFiles` is the destination listing before the call,
`destExists` whether the destination directory exists (`mkstemp` fails
otherwise), `tmpSuffix` the random part `mkstemp` appends, and
`tarOk`/`renameOk` inject I/O failures into the tar-writing step and the
`os.replace` step. -/
def write_archive (files : List FPath) (src_root dest_dir : FPath)
    (destFiles : List (String × Bool)) (destExists : Bool)
    (archive_name tmpSuffix : String) (dry_run tarOk renameOk : Bool) :
    WriteResult :=
  if files.isEmpty then ⟨.ok none, destFiles, [], []⟩
  else if !destExists then ⟨.error .mkstempError, destFiles, [], []⟩
  else
    let tmp := archive_name ++ "." ++ tmpSuffix
    let afterCreate := destFiles ++ [(tmp, false)]
    if dry_run then
      ⟨.ok (some (dest_dir ++ [archive_name])), removeName afterCreate tmp,
        [.created tmp, .removed tmp], []⟩
    else if !tarOk then
      ⟨.error .tarError, removeName afterCreate tmp,
        [.created tmp, .removed tmp], []⟩
    else
      let afterTar := removeName afterCreate tmp ++ [(tmp, true)]
      if !renameOk then
        ⟨.error .renameError, removeName afterTar tmp,
          [.created tmp, .removed tmp], []⟩
      else
        ⟨.ok (some (dest_dir ++ [archive_name])),
          removeName (removeName afterTar tmp) archive_name ++
            [(archive_name, true)],
          [.created tmp, .renamed tmp archive_name],
          files.map (fun f => relpath src_root f)⟩

/-- Function `append_history(logfile, entry)`: appends one line to the log's
current line list, creating the file (empty list) if absent. -/
def append_history (lines : List String) (entry : String) : List String :=
  lines ++ [entry]

/-- Function `delete_files(files, dry_run)`: the files actually removed. -/
def delete_files (files : List FPath) (dry_run : Bool) : List FPath :=
  if dry_run then [] else files

/-- Parsed configuration as `main` consumes it (the values of the
attribute reads `args.log_dir`, `args.days`, ..., `args.dry_run`). -/
structure Args where
  log_dir : FPath
  days : Option Int
  dest : Option FPath
  move : Bool
  retain : Option Int
  logfile : Option FPath
  dry_run : Bool
deriving DecidableEq

/-- Syscall observations a run makes, in order of use. -/
structure Env where
  isdir : Bool
  now : Int
  ts : String
  iso : String
  destExists : Bool
  entries : List WalkEntry
  destFiles : List (String × Bool)
  destListing : List (String × Int)
  tmpSuffix : String
  tarOk : Bool
  renameOk : Bool
  size : Nat
deriving DecidableEq

/-- Line 115, `dest = args.dest or os.path.join(src, "archives")`. -/
def destOf (a : Args) : FPath :=
  match a.dest with
  | some d => d
  | none => a.log_dir ++ ["archives"]

/-- Line 116, `logfile = args.logfile or os.path.join(dest, "archive_history.log")`. -/
def logfileOf (a : Args) : FPath :=
  match a.logfile with
  | some l => l
  | none => destOf a ++ ["archive_history.log"]

/-- Lines 120–122 of `main`: `find_files` followed by the
`os.path.commonpath`-based destination filter. -/
def selectCandidates (a : Args) (env : Env) : List FPath :=
  (find_files env.entries env.now a.days).filter
    (fun f => !(commonPath f (destOf a) = destOf a : Bool))

/-- Line 143–144 of `main`: `if args.retain: cleanup_archives(...)` with
Python numeric truthiness on `args.retain`. -/
def pruneStep (retain : Option Int) (env : Env) (dry_run : Bool) :
    List String :=
  match retain with
  | none => []
  | some r =>
    if r == 0 then []
    else cleanup_archives env.destListing env.now cleanupDefaultPat
      (some r) dry_run

/-- The history line `main` builds at line 135 (size reads of the archive
are skipped under dry-run, leaving `size=0`). -/
def histEntry (a : Args) (env : Env) : String :=
  env.iso ++ " | " ++ make_archive_name env.ts ++ " | files=" ++
    toString (selectCandidates a env).length ++ " | size=" ++
    toString (if a.dry_run then (0 : Nat) else env.size) ++ " | src=" ++
    showPath a.log_dir

/-- How a run of `main`'s body ends. -/
inductive RunOutcome
  | exit2
  | exit0Empty
  | writeFailed (e : WErr)
  | completed (archivePath : Option FPath)
deriving DecidableEq

/-- Observable effects of one run of `main`'s body. -/
structure RunEffects where
  outcome : RunOutcome
  dirCreated : Option FPath
  candidates : List FPath
  writeEvents : List WEvent
  destFilesAfter : List (String × Bool)
  historyAppends : List (FPath × String)
  deletedSources : List FPath
  prunedArchives : List String
deriving DecidableEq

/-- Lines 111–145 of `main`, starting after the `args.*` attribute reads
(the reads themselves are modelled in `mainArgv` below): source-directory
check, `ensure_dir`, selection, archive writing, history append, optional
deletion of originals, optional retention pruning. -/
def runMain (a : Args) (env : Env) : RunEffects :=
  if !env.isdir then
    ⟨.exit2, none, [], [], env.destFiles, [], [], []⟩
  else
    let dest := destOf a
    let logfile := logfileOf a
    let dirCreated : Option FPath :=
      if env.destExists then none
      else if a.dry_run then none else some dest
    let files := selectCandidates a env
    if files.isEmpty then
      ⟨.exit0Empty, dirCreated, files, [], env.destFiles, [], [], []⟩
    else
      let name := make_archive_name env.ts
      let wr := write_archive files a.log_dir dest env.destFiles
        (env.destExists || dirCreated.isSome) name env.tmpSuffix
        a.dry_run env.tarOk env.renameOk
      match wr.outcome with
      | .error e =>
        ⟨.writeFailed e, dirCreated, files, wr.events, wr.destFiles,
          [], [], []⟩
      | .ok none =>
        ⟨.completed none, dirCreated, files, wr.events, wr.destFiles,
          [], [], []⟩
      | .ok (some p) =>
        ⟨.completed (some p), dirCreated, files, wr.events, wr.destFiles,
          if a.dry_run then [] else [(logfile, histEntry a env)],
          if a.move then delete_files files a.dry_run else [],
          pruneStep a.retain env a.dry_run⟩

/-- The `argparse` namespace produced by `parse_args()`: exactly the
attributes registered there — the positional `lod_dir` (note: spelled
`lod_dir` at line 21 of the source) and the five options. No `dry_run`
attribute is ever registered. -/
structure Namespace where
  lod_dir : String
  days : Option Int
  dest : Option String
  move : Bool
  retain : Option Int
  logfile : Option String
deriving DecidableEq

/-- A Python attribute value. -/
inductive AttrVal
  | str (s : String)
  | optInt (v : Option Int)
  | optStr (v : Option String)
  | bool (b : Bool)
deriving DecidableEq

/-- Python attribute access `getattr(ns, name)` on the parsed namespace:
`none` models `AttributeError`. -/
def getattr (ns : Namespace) (name : String) : Option AttrVal :=
  if name = "lod_dir" then some (.str ns.lod_dir)
  else if name = "days" then some (.optInt ns.days)
  else if name = "dest" then some (.optStr ns.dest)
  else if name = "move" then some (.bool ns.move)
  else if name = "retain" then some (.optInt ns.retain)
  else if name = "logfile" then some (.optStr ns.logfile)
  else none

/-- Accumulator for `parse_args`: the positional not yet bound. -/
structure PreNs where
  lod_dir : Option String
  days : Option Int
  dest : Option String
  move : Bool
  retain : Option Int
  logfile : Option String

/-- One pass of the `argparse` loop over the argument vector for the
option set registered in `parse_args()` (`--days`, `--dest`, `--move`,
`--retain`, `--logfile`, plus the automatic `--help`). Any other
`-`-initial token is an `argparse` usage error, which exits with code 2;
`--help` exits with code 0. -/
def parseTokens : List String → PreNs → Except Nat PreNs
  | [], acc => .ok acc
  | tok :: rest, acc =>
    if strStartsWith tok "-" then
      if tok = "--help" then .error 0
      else if tok = "--days" then
        match rest with
        | v :: rest2 =>
          match v.toInt? with
          | some n => parseTokens rest2 { acc with days := some n }
          | none => .error 2
        | [] => .error 2
      else if tok = "--dest" then
        match rest with
        | v :: rest2 => parseTokens rest2 { acc with dest := some v }
        | [] => .error 2
      else if tok = "--move" then
        parseTokens rest { acc with move := true }
      else if tok = "--retain" then
        match rest with
        | v :: rest2 =>
          match v.toInt? with
          | some n => parseTokens rest2 { acc with retain := some n }
          | none => .error 2
        | [] => .error 2
      else if tok = "--logfile" then
        match rest with
        | v :: rest2 => parseTokens rest2 { acc with logfile := some v }
        | [] => .error 2
      else .error 2
    else
      match acc.lod_dir with
      | none => parseTokens rest { acc with lod_dir := some tok }
      | some _ => .error 2

/-- Function `parse_args()` from the source: parses the argument vector against the
registered arguments; a usage error exits the process with code 2. -/
def parse_args (argv : List String) : Except Nat Namespace :=
  match parseTokens argv ⟨none, none, none, false, none, none⟩ with
  | .error c => .error c
  | .ok acc =>
    match acc.lod_dir with
    | none => .error 2
    | some d => .ok ⟨d, acc.days, acc.dest, acc.move, acc.retain, acc.logfile⟩

/-- Models `os.path.abspath` on an already-absolute string path, as components. -/
def splitPath (s : String) : FPath :=
  (s.splitOn "/").filter (fun c => !(c == ""))

/-- How an invocation of the program ends, seen from the shell. -/
inductive MainOutcome
  | exited (code : Nat)
  | attrError (name : String)
  | ran (eff : RunEffects)
deriving DecidableEq

/-- Function `main()` from the source at the argument-vector level: `parse_args`,
then the attribute reads `args.log_dir` (line 111) and `args.dry_run`
(line 118) — neither of which `parse_args` registers — then the body
modelled by `runMain`. An `AttributeError` terminates the process with a
traceback (exit code 1). -/
def mainArgv (argv : List String) (env : Env) : MainOutcome :=
  match parse_args argv with
  | .error c => .exited c
  | .ok ns =>
    match getattr ns "log_dir" with
    | none => .attrError "log_dir"
    | some v =>
      if !env.isdir then .exited 2
      else
        match getattr ns "dry_run" with
        | none => .attrError "dry_run"
        | some _ =>
          let src := match v with | .str s => splitPath s | _ => []
          .ran (runMain
            ⟨src, ns.days, (ns.dest.map splitPath), ns.move, ns.retain,
              (ns.logfile.map splitPath), false⟩ env)

/-! ## Helper lemmas -/

theorem commonPath_eq_iff (d p : FPath) : commonPath p d = d ↔ underDir d p := by
  induction d generalizing p with
  | nil =>
    constructor
    · intro _
      exact ⟨p, rfl⟩
    · intro _
      cases p with
      | nil => rfl
      | cons a as => rfl
  | cons b bs ih =>
    cases p with
    | nil =>
      constructor
      · intro h
        simp [commonPath] at h
      · rintro ⟨r, hr⟩
        simp at hr
    | cons a as =>
      by_cases hab : a = b
      · subst hab
        have hcp : commonPath (a :: as) (a :: bs) = a :: commonPath as bs := by
          simp [commonPath]
        constructor
        · intro h
          rw [hcp] at h
          rcases (ih as).mp (List.cons.inj h).2 with ⟨r, hr⟩
          exact ⟨r, by simp [hr]⟩
        · rintro ⟨r, hr⟩
          rw [List.cons_append] at hr
          rcases List.cons.inj hr with ⟨-, has⟩
          rw [hcp]
          exact congrArg (a :: ·) ((ih as).mpr ⟨r, has⟩)
      · constructor
        · intro h
          simp [commonPath, hab] at h
        · rintro ⟨r, hr⟩
          rw [List.cons_append] at hr
          exact absurd (List.cons.inj hr).1 hab

theorem selectCandidates_not_under (a : Args) (env : Env) (f : FPath)
    (h : f ∈ selectCandidates a env) : ¬ underDir (destOf a) f := by
  intro hu
  have h2 := (List.mem_filter.mp h).2
  rw [(commonPath_eq_iff (destOf a) f).mpr hu] at h2
  simp at h2

theorem getattr_log_dir_absent (ns : Namespace) :
    getattr ns "log_dir" = none := by
  simp [getattr]

theorem removeName_of_not_mem (l : List (String × Bool)) (n : String)
    (h : n ∉ l.map Prod.fst) : removeName l n = l := by
  unfold removeName
  refine List.filter_eq_self.mpr ?_
  intro e he
  have hm : e.1 ∈ l.map Prod.fst := List.mem_map_of_mem Prod.fst he
  simp only [Bool.not_eq_true', beq_eq_false_iff_ne, ne_eq]
  intro heq
  exact h (heq ▸ hm)

theorem removeName_append_single (l : List (String × Bool)) (n : String)
    (b : Bool) (h : n ∉ l.map Prod.fst) :
    removeName (l ++ [(n, b)]) n = l := by
  unfold removeName
  rw [List.filter_append]
  have h1 : removeName l n = l := removeName_of_not_mem l n h
  unfold removeName at h1
  rw [h1]
  simp

theorem tmp_name_ne (an s : String) : an ++ "." ++ s ≠ an := by
  intro h
  have hl := congrArg String.length h
  rw [String.length_append, String.length_append] at hl
  have h1 : (".").length = 1 := rfl
  omega

/-! ## Claim theorems -/

/-- C1: the claim states the retention pruner deletes exactly the
destination entries carrying the generator's `logs_archive_` prefix, the
`.tar.gz` suffix, and an mtime older than `now - N*86400`. The code is
wrong: `cleanup_archives`'s pattern default is `"log_archive_"` (missing
the `s`), which never matches any name `make_archive_name` produces, so
the pruner deletes none of the tool's own archives. Below: no generated
name matches the pattern, and on a concrete destination holding a
generated archive far older than the cutoff, the pruner removes
nothing. -/
theorem cleanup_never_matches_generated_archives (ts : String) :
    strStartsWith (make_archive_name ts) cleanupDefaultPat = false ∧
    cleanup_archives [(make_archive_name "20250101_120000", 0)] (10 * 86400)
      cleanupDefaultPat (some 7) false = [] ∧
    ((0 : Int) < 10 * 86400 - 7 * 86400) := by
  refine ⟨?_, by decide, by decide⟩
  have h : (make_archive_name ts).toList =
      'l' :: 'o' :: 'g' :: 's' ::
        ("_archive_".toList ++ ts.toList ++ ".tar.gz".toList) := by
    simp [make_archive_name, String.toList, String.data_append]
  rw [strStartsWith, h]
  rfl

/-- C2: the claim states a missing/non-directory source exits with code 2
before any other step, and a valid source with no candidates exits 0. The
code is wrong: `parse_args` registers the positional under the attribute
`lod_dir` (source line 21), while `main` reads `args.log_dir` (line 111),
so every successfully parsed invocation dies with `AttributeError`
(a traceback, process exit code 1) before the source-directory check ever
runs — no invocation can exit with 2 there, and none can reach the
"nothing to archive" exit 0. -/
theorem main_crashes_on_missing_log_dir_attr (argv : List String)
    (env : Env) (ns : Namespace) (h : parse_args argv = .ok ns) :
    mainArgv argv env = .attrError "log_dir" := by
  unfold mainArgv
  rw [h]
  simp [getattr_log_dir_absent]

theorem main_crashes_on_missing_log_dir_attr_witness :
    parse_args ["/missing"] =
      .ok (⟨"/missing", none, none, false, none, none⟩ : Namespace) ∧
    mainArgv ["/missing"] ⟨false, 0, "", "", true, [], [], [], "", true, true, 0⟩ =
      .attrError "log_dir" :=
  ⟨by decide,
    main_crashes_on_missing_log_dir_attr ["/missing"]
      ⟨false, 0, "", "", true, [], [], [], "", true, true, 0⟩
      ⟨"/missing", none, none, false, none, none⟩ (by decide)⟩

/-- C3: the claim describes `--dry-run` behaviour (unchanged destination,
history and sources, one report line per would-be action, final path still
returned). The code is wrong: although the module docstring advertises
`--dry-run` and `main`/`write_archive`/`ensure_dir` all consume a
`dry_run` flag, `parse_args` never registers the option, so an invocation
with `--dry-run` is rejected by `argparse` as an unrecognized argument and
the process exits with code 2 having done and reported nothing (and even
without the flag, `args.dry_run` would raise `AttributeError`). -/
theorem dry_run_option_unregistered :
    parse_args ["logs", "--dry-run"] = .error 2 ∧
    mainArgv ["logs", "--dry-run"]
      ⟨true, 0, "", "", true, [], [], [], "", true, true, 0⟩ = .exited 2 ∧
    (∀ ns : Namespace, getattr ns "dry_run" = none) := by
  refine ⟨by decide, by decide, ?_⟩
  intro ns
  simp [getattr]

/-- C4 (counterexample): the claim says the selector returns exactly the
regular files whose mtime is ≤ `now - N*86400`. The guard in `find_files`
is `if threshold and mtime > threshold`, so when the computed cutoff is
exactly `0` Python's numeric truthiness disables the age filter entirely:
at `now = 86400`, `--days 1`, a file of mtime `1 > 0` is still selected. -/
theorem find_files_zero_cutoff_counterexample :
    find_files [⟨["a", "x.log"], 1, true⟩] 86400 (some 1) = [["a", "x.log"]] ∧
    ¬ ((1 : Int) ≤ 86400 - 1 * 86400) := by decide

/-- C4 (amended): provided the computed cutoff `now - N*86400` is nonzero
(always the case for a real clock reading), `find_files` returns exactly
the regular files whose mtime is not strictly greater than the cutoff;
with no threshold it returns all regular files, unconditionally. -/
theorem find_files_characterization (entries : List WalkEntry)
    (now d : Int) (h : now - d * 86400 ≠ 0) :
    find_files entries now (some d) =
      (entries.filter (fun e =>
        e.isfile && decide (e.mtime ≤ now - d * 86400))).map WalkEntry.path ∧
    ∀ (es : List WalkEntry) (n2 : Int),
      find_files es n2 none = (es.filter WalkEntry.isfile).map WalkEntry.path := by
  constructor
  · unfold find_files
    refine congrArg _ (List.filter_congr ?_)
    intro e _
    have hb : ((now - d * 86400 == 0) : Bool) = false := by
      simpa using h
    simp only [hb, Bool.not_false, Bool.true_and]
    rcases le_or_lt e.mtime (now - d * 86400) with hle | hgt
    · simp [hle, not_lt.mpr hle]
    · simp [hgt, not_le.mpr hgt]
  · intro es n2
    unfold find_files
    refine congrArg _ (List.filter_congr ?_)
    intro e _
    simp

theorem find_files_characterization_witness :
    (86500 : Int) - 1 * 86400 ≠ 0 ∧
    find_files [⟨["a", "x.log"], 1, true⟩, ⟨["a", "y.log"], 200, true⟩,
        ⟨["a", "d"], 1, false⟩] 86500 (some 1) = [["a", "x.log"]] := by
  refine ⟨by decide, ?_⟩
  rw [(find_files_characterization
    [⟨["a", "x.log"], 1, true⟩, ⟨["a", "y.log"], 200, true⟩,
      ⟨["a", "d"], 1, false⟩] 86500 1 (by decide)).1]
  decide

/-! ## Run-level inversion lemmas -/

theorem runMain_pruned_cases (a : Args) (env : Env) :
    (runMain a env).prunedArchives = [] ∨
    (runMain a env).prunedArchives = pruneStep a.retain env a.dry_run := by
  simp only [runMain]
  split
  · exact Or.inl rfl
  · split
    · exact Or.inl rfl
    · split
      · exact Or.inl rfl
      · exact Or.inl rfl
      · exact Or.inr rfl

theorem runMain_completed_inv (a : Args) (env : Env) (p : FPath) :
    (runMain a env).outcome = .completed (some p) →
    ((runMain a env).historyAppends =
        (if a.dry_run then [] else [(logfileOf a, histEntry a env)]) ∧
      (runMain a env).deletedSources =
        (if a.move then delete_files (selectCandidates a env) a.dry_run
         else []) ∧
      (runMain a env).prunedArchives = pruneStep a.retain env a.dry_run ∧
      (runMain a env).candidates = selectCandidates a env) := by
  simp only [runMain]
  split
  · intro h; simp at h
  · split
    · intro h; simp at h
    · split
      · intro h; simp at h
      · intro h; simp at h
      · intro _; exact ⟨rfl, rfl, rfl, rfl⟩

/-- C5: any failure while writing the temporary file or renaming it
removes the temporary file before the error propagates (destination
restored to its pre-call listing), a file under the final archive name can
only appear fully written together with a successful return of that final
path, and the temporary name never survives the call — an archive is
either fully written or absent. -/
theorem write_archive_atomic (files : List FPath) (src_root dest_dir : FPath)
    (destFiles : List (String × Bool)) (destExists : Bool)
    (archive_name tmpSuffix : String) (dry_run tarOk renameOk : Bool)
    (r : WriteResult)
    (hr : write_archive files src_root dest_dir destFiles destExists
      archive_name tmpSuffix dry_run tarOk renameOk = r)
    (htmp : archive_name ++ "." ++ tmpSuffix ∉ destFiles.map Prod.fst)
    (hfin : archive_name ∉ destFiles.map Prod.fst) :
    ((∃ e, r.outcome = .error e) → r.destFiles = destFiles) ∧
    (∀ b, (archive_name, b) ∈ r.destFiles →
      b = true ∧ r.outcome = .ok (some (dest_dir ++ [archive_name]))) ∧
    archive_name ++ "." ++ tmpSuffix ∉ r.destFiles.map Prod.fst := by
  subst hr
  simp only [write_archive]
  split
  · refine ⟨?_, ?_, ?_⟩
    · rintro ⟨e, he⟩
      simp at he
    · intro b hb
      exact absurd (List.mem_map_of_mem Prod.fst hb) hfin
    · exact htmp
  · split
    · refine ⟨?_, ?_, ?_⟩
      · intro _
        rfl
      · intro b hb
        exact absurd (List.mem_map_of_mem Prod.fst hb) hfin
      · exact htmp
    · split
      · refine ⟨?_, ?_, ?_⟩
        · rintro ⟨e, he⟩
          simp at he
        · intro b hb
          simp only [removeName_append_single destFiles
            (archive_name ++ "." ++ tmpSuffix) false htmp] at hb
          exact absurd (List.mem_map_of_mem Prod.fst hb) hfin
        · simp only [removeName_append_single destFiles
            (archive_name ++ "." ++ tmpSuffix) false htmp]
          exact htmp
      · split
        · refine ⟨?_, ?_, ?_⟩
          · intro _
            simp only [removeName_append_single destFiles
              (archive_name ++ "." ++ tmpSuffix) false htmp]
          · intro b hb
            simp only [removeName_append_single destFiles
              (archive_name ++ "." ++ tmpSuffix) false htmp] at hb
            exact absurd (List.mem_map_of_mem Prod.fst hb) hfin
          · simp only [removeName_append_single destFiles
              (archive_name ++ "." ++ tmpSuffix) false htmp]
            exact htmp
        · split
          · refine ⟨?_, ?_, ?_⟩
            · intro _
              simp only [removeName_append_single destFiles
                (archive_name ++ "." ++ tmpSuffix) false htmp,
                removeName_append_single destFiles
                (archive_name ++ "." ++ tmpSuffix) true htmp]
            · intro b hb
              simp only [removeName_append_single destFiles
                (archive_name ++ "." ++ tmpSuffix) false htmp,
                removeName_append_single destFiles
                (archive_name ++ "." ++ tmpSuffix) true htmp] at hb
              exact absurd (List.mem_map_of_mem Prod.fst hb) hfin
            · simp only [removeName_append_single destFiles
                (archive_name ++ "." ++ tmpSuffix) false htmp,
                removeName_append_single destFiles
                (archive_name ++ "." ++ tmpSuffix) true htmp]
              exact htmp
          · refine ⟨?_, ?_, ?_⟩
            · rintro ⟨e, he⟩
              simp at he
            · intro b hb
              simp only [removeName_append_single destFiles
                (archive_name ++ "." ++ tmpSuffix) false htmp,
                removeName_append_single destFiles
                (archive_name ++ "." ++ tmpSuffix) true htmp,
                removeName_of_not_mem destFiles archive_name hfin] at hb
              rcases List.mem_append.mp hb with h1 | h1
              · exact absurd (List.mem_map_of_mem Prod.fst h1) hfin
              · have hb2 : b = true :=
                  congrArg Prod.snd (List.mem_singleton.mp h1)
                exact ⟨hb2, rfl⟩
            · simp only [removeName_append_single destFiles
                (archive_name ++ "." ++ tmpSuffix) false htmp,
                removeName_append_single destFiles
                (archive_name ++ "." ++ tmpSuffix) true htmp,
                removeName_of_not_mem destFiles archive_name hfin,
                List.map_append, List.mem_append, List.map_cons,
                List.map_nil, List.mem_singleton]
              rintro (h1 | h1)
              · exact htmp h1
              · exact tmp_name_ne archive_name tmpSuffix h1

theorem write_archive_atomic_witness :
    ((∃ e, (write_archive [["a.log"]] ["s"] ["d"] [("keep.txt", true)] true
        "n.tar.gz" "x" false false true).outcome = .error e) →
      (write_archive [["a.log"]] ["s"] ["d"] [("keep.txt", true)] true
        "n.tar.gz" "x" false false true).destFiles = [("keep.txt", true)]) ∧
    (∀ b, ("n.tar.gz", b) ∈ (write_archive [["a.log"]] ["s"] ["d"]
        [("keep.txt", true)] true "n.tar.gz" "x" false false true).destFiles →
      b = true ∧ (write_archive [["a.log"]] ["s"] ["d"] [("keep.txt", true)]
        true "n.tar.gz" "x" false false true).outcome =
          .ok (some (["d"] ++ ["n.tar.gz"]))) ∧
    "n.tar.gz" ++ "." ++ "x" ∉ (write_archive [["a.log"]] ["s"] ["d"]
      [("keep.txt", true)] true "n.tar.gz" "x" false false true).destFiles.map
        Prod.fst :=
  write_archive_atomic [["a.log"]] ["s"] ["d"] [("keep.txt", true)] true
    "n.tar.gz" "x" false false true _ rfl (by decide) (by decide)

/-- C6: no file located (lexically) under the destination directory is
ever in the candidate list handed to the archive writer: every candidate
survives the `os.path.commonpath` filter of `main`, which removes exactly
the paths at or below the destination. -/
theorem candidates_never_under_dest (a : Args) (env : Env) (f : FPath)
    (h : f ∈ (runMain a env).candidates) : ¬ underDir (destOf a) f := by
  have hc : f ∈ selectCandidates a env := by
    revert h
    simp only [runMain]
    split
    · intro h
      simp at h
    · split
      · intro h
        exact h
      · split
        · intro h
          exact h
        · intro h
          exact h
        · intro h
          exact h
  exact selectCandidates_not_under a env f hc

theorem candidates_never_under_dest_witness :
    ["var", "log", "a.log"] ∈
      (runMain ⟨["var", "log"], none, none, false, none, none, false⟩
        ⟨true, 100, "T", "I", true,
          [⟨["var", "log", "a.log"], 0, true⟩,
           ⟨["var", "log", "archives", "old.tar.gz"], 0, true⟩],
          [], [], "x", true, true, 5⟩).candidates ∧
    ¬ underDir (destOf ⟨["var", "log"], none, none, false, none, none, false⟩)
      ["var", "log", "a.log"] :=
  ⟨by decide,
    candidates_never_under_dest
      ⟨["var", "log"], none, none, false, none, none, false⟩
      ⟨true, 100, "T", "I", true,
        [⟨["var", "log", "a.log"], 0, true⟩,
         ⟨["var", "log", "archives", "old.tar.gz"], 0, true⟩],
        [], [], "x", true, true, 5⟩
      ["var", "log", "a.log"] (by decide)⟩

/-- C7: on the empty candidate list the archive writer does no I/O and
returns the empty result (`None`), and a run whose selection is empty
terminates successfully (`sys.exit(0)`) having written no archive,
appended no history, deleted no source, and pruned no archive. -/
theorem empty_selection_no_io :
    (∀ (src_root dest_dir : FPath) (destFiles : List (String × Bool))
      (destExists : Bool) (archive_name tmpSuffix : String)
      (dry_run tarOk renameOk : Bool),
      write_archive [] src_root dest_dir destFiles destExists archive_name
        tmpSuffix dry_run tarOk renameOk = ⟨.ok none, destFiles, [], []⟩) ∧
    (∀ (a : Args) (env : Env), env.isdir = true →
      selectCandidates a env = [] →
      (runMain a env).outcome = .exit0Empty ∧
      (runMain a env).writeEvents = [] ∧
      (runMain a env).destFilesAfter = env.destFiles ∧
      (runMain a env).historyAppends = [] ∧
      (runMain a env).deletedSources = [] ∧
      (runMain a env).prunedArchives = []) := by
  constructor
  · intro src_root dest_dir destFiles destExists archive_name tmpSuffix
      dry_run tarOk renameOk
    rfl
  · intro a env hd hs
    refine ⟨?_, ?_, ?_, ?_, ?_, ?_⟩ <;> simp [runMain, hd, hs]

theorem empty_selection_no_io_witness :
    write_archive [] ["s"] ["d"] [("keep.txt", true)] true "n.tar.gz" "x"
      false true true = ⟨.ok none, [("keep.txt", true)], [], []⟩ ∧
    ((runMain ⟨["var", "log"], some 1, none, true, some 3, none, false⟩
        ⟨true, 864000, "T", "I", true, [⟨["var", "log", "new.log"], 863999, true⟩],
          [], [], "x", true, true, 5⟩).outcome = .exit0Empty ∧
      (runMain ⟨["var", "log"], some 1, none, true, some 3, none, false⟩
        ⟨true, 864000, "T", "I", true, [⟨["var", "log", "new.log"], 863999, true⟩],
          [], [], "x", true, true, 5⟩).writeEvents = [] ∧
      (runMain ⟨["var", "log"], some 1, none, true, some 3, none, false⟩
        ⟨true, 864000, "T", "I", true, [⟨["var", "log", "new.log"], 863999, true⟩],
          [], [], "x", true, true, 5⟩).destFilesAfter = [] ∧
      (runMain ⟨["var", "log"], some 1, none, true, some 3, none, false⟩
        ⟨true, 864000, "T", "I", true, [⟨["var", "log", "new.log"], 863999, true⟩],
          [], [], "x", true, true, 5⟩).historyAppends = [] ∧
      (runMain ⟨["var", "log"], some 1, none, true, some 3, none, false⟩
        ⟨true, 864000, "T", "I", true, [⟨["var", "log", "new.log"], 863999, true⟩],
          [], [], "x", true, true, 5⟩).deletedSources = [] ∧
      (runMain ⟨["var", "log"], some 1, none, true, some 3, none, false⟩
        ⟨true, 864000, "T", "I", true, [⟨["var", "log", "new.log"], 863999, true⟩],
          [], [], "x", true, true, 5⟩).prunedArchives = []) :=
  ⟨empty_selection_no_io.1 ["s"] ["d"] [("keep.txt", true)] true "n.tar.gz"
      "x" false true true,
    empty_selection_no_io.2
      ⟨["var", "log"], some 1, none, true, some 3, none, false⟩
      ⟨true, 864000, "T", "I", true, [⟨["var", "log", "new.log"], 863999, true⟩],
        [], [], "x", true, true, 5⟩ rfl (by decide)⟩

/-- C9: with a non-empty candidate list the archive writer in dry-run mode
still creates a temporary file in the destination directory via `mkstemp`
and removes it again — a transient filesystem mutation — and when the
destination directory does not exist the `mkstemp` call (made before the
dry-run branch) fails. -/
theorem write_archive_dry_run_creates_temp (files : List FPath)
    (src_root dest_dir : FPath) (destFiles : List (String × Bool))
    (archive_name tmpSuffix : String) (tarOk renameOk : Bool)
    (hne : files ≠ []) :
    (write_archive files src_root dest_dir destFiles true archive_name
        tmpSuffix true tarOk renameOk).events =
      [.created (archive_name ++ "." ++ tmpSuffix),
       .removed (archive_name ++ "." ++ tmpSuffix)] ∧
    (write_archive files src_root dest_dir destFiles true archive_name
        tmpSuffix true tarOk renameOk).outcome =
      .ok (some (dest_dir ++ [archive_name])) ∧
    (write_archive files src_root dest_dir destFiles false archive_name
        tmpSuffix true tarOk renameOk).outcome = .error .mkstempError := by
  have hE : files.isEmpty = false := by
    simp [List.isEmpty_eq_false, hne]
  refine ⟨?_, ?_, ?_⟩ <;> simp [write_archive, hE]

theorem write_archive_dry_run_creates_temp_witness :
    (write_archive [["a.log"]] ["s"] ["d"] [] true "n.tar.gz" "x" true true
        true).events =
      [.created ("n.tar.gz" ++ "." ++ "x"),
       .removed ("n.tar.gz" ++ "." ++ "x")] ∧
    (write_archive [["a.log"]] ["s"] ["d"] [] true "n.tar.gz" "x" true true
        true).outcome = .ok (some (["d"] ++ ["n.tar.gz"])) ∧
    (write_archive [["a.log"]] ["s"] ["d"] [] false "n.tar.gz" "x" true true
        true).outcome = .error .mkstempError :=
  write_archive_dry_run_creates_temp [["a.log"]] ["s"] ["d"] []
    "n.tar.gz" "x" true true (by decide)

/-- Concrete run for the C8 counterexample: `--move` with `--logfile`
pointing at an existing regular file inside the source tree (outside the
destination). -/
def moveLogArgs : Args :=
  ⟨["var", "log"], none, none, true, none, some ["var", "log", "h.log"], false⟩

/-- Environment for the C8 counterexample: the history log exists as a
regular file under the source directory. -/
def moveLogEnv : Env :=
  ⟨true, 100, "T", "I", true,
    [⟨["var", "log", "a.log"], 0, true⟩, ⟨["var", "log", "h.log"], 0, true⟩],
    [], [], "x", true, true, 5⟩

/-- C8 (counterexample): the claim says no operation of the system ever
mutates or removes an existing history line. With `--move` and a
`--logfile` inside the source tree, the run archives the existing history
log as an ordinary candidate and then deletes it — removing every line it
held (the run even appends its new line first, then deletes the file). -/
theorem history_log_deleted_by_move :
    (⟨logfileOf moveLogArgs, 0, true⟩ : WalkEntry) ∈ moveLogEnv.entries ∧
    logfileOf moveLogArgs ∈ (runMain moveLogArgs moveLogEnv).deletedSources ∧
    (runMain moveLogArgs moveLogEnv).historyAppends.length = 1 := by decide

/-- C8 (amended): every successful non-dry-run archive appends exactly one
line of the form
`{iso-timestamp} | {archive-name} | files={count} | size={bytes} | src={source-dir}`
to the history log (created if absent); appends are the only way the run
writes the log, and the run never deletes the history log provided it does
not reside strictly inside the source tree outside the destination — in
particular never when it lies under the destination directory, its default
location. (With `--move` and `--logfile` inside the source tree the run
deletes the log itself, per the counterexample.) -/
theorem history_single_append (a : Args) (env : Env) (p : FPath)
    (hc : (runMain a env).outcome = .completed (some p))
    (hd : a.dry_run = false) :
    (runMain a env).historyAppends = [(logfileOf a, histEntry a env)] ∧
    (underDir (destOf a) (logfileOf a) →
      logfileOf a ∉ (runMain a env).deletedSources) := by
  obtain ⟨hh, hdel, -, -⟩ := runMain_completed_inv a env p hc
  constructor
  · rw [hh, hd]
    simp
  · intro hu hmem
    rw [hdel] at hmem
    have hsel : logfileOf a ∈ selectCandidates a env := by
      by_cases hm : a.move
      · simpa [hm, delete_files, hd] using hmem
      · simp [hm] at hmem
    exact selectCandidates_not_under a env _ hsel hu

theorem history_single_append_witness :
    (runMain ⟨["var", "log"], none, none, false, none, none, false⟩
        ⟨true, 100, "T", "I", true, [⟨["var", "log", "a.log"], 0, true⟩],
          [], [], "x", true, true, 5⟩).historyAppends =
      [(logfileOf ⟨["var", "log"], none, none, false, none, none, false⟩,
        histEntry ⟨["var", "log"], none, none, false, none, none, false⟩
          ⟨true, 100, "T", "I", true, [⟨["var", "log", "a.log"], 0, true⟩],
            [], [], "x", true, true, 5⟩)] ∧
    (underDir (destOf ⟨["var", "log"], none, none, false, none, none, false⟩)
        (logfileOf ⟨["var", "log"], none, none, false, none, none, false⟩) →
      logfileOf ⟨["var", "log"], none, none, false, none, none, false⟩ ∉
        (runMain ⟨["var", "log"], none, none, false, none, none, false⟩
          ⟨true, 100, "T", "I", true, [⟨["var", "log", "a.log"], 0, true⟩],
            [], [], "x", true, true, 5⟩).deletedSources) :=
  history_single_append
    ⟨["var", "log"], none, none, false, none, none, false⟩
    ⟨true, 100, "T", "I", true, [⟨["var", "log", "a.log"], 0, true⟩],
      [], [], "x", true, true, 5⟩
    ["var", "log", "archives", "logs_archive_T.tar.gz"] (by decide) rfl

/-- C10: `main` guards the pruning call with the truthiness test
`if args.retain:`, so a retention threshold of exactly `0` days is treated
like an unset threshold: the run prunes nothing (rather than deleting
every archive older than `now`). -/
theorem retain_zero_prunes_nothing (a : Args) (env : Env)
    (h : a.retain = some 0) :
    (runMain a env).prunedArchives = [] ∧
    pruneStep a.retain env a.dry_run = pruneStep none env a.dry_run := by
  have hp : pruneStep a.retain env a.dry_run = [] := by
    rw [h]
    rfl
  refine ⟨?_, by rw [hp]; rfl⟩
  rcases runMain_pruned_cases a env with h1 | h1
  · exact h1
  · rw [h1, hp]

theorem retain_zero_prunes_nothing_witness :
    (runMain ⟨["var", "log"], none, none, false, some 0, none, false⟩
        ⟨true, 864000, "T", "I", true, [⟨["var", "log", "a.log"], 0, true⟩],
          [], [("log_archive_old.tar.gz", 0)], "x", true, true, 5⟩).prunedArchives
      = [] ∧
    pruneStep (some 0)
      ⟨true, 864000, "T", "I", true, [⟨["var", "log", "a.log"], 0, true⟩],
        [], [("log_archive_old.tar.gz", 0)], "x", true, true, 5⟩ false =
    pruneStep none
      ⟨true, 864000, "T", "I", true, [⟨["var", "log", "a.log"], 0, true⟩],
        [], [("log_archive_old.tar.gz", 0)], "x", true, true, 5⟩ false :=
  retain_zero_prunes_nothing
    ⟨["var", "log"], none, none, false, some 0, none, false⟩
    ⟨true, 864000, "T", "I", true, [⟨["var", "log", "a.log"], 0, true⟩],
      [], [("log_archive_old.tar.gz", 0)], "x", true, true, 5⟩ rfl
